import Mathlib

/-!
# Verification of the ilqgames open-loop LQ game solver

Shallow embedding of `src/lq_open_loop_solver.cpp`
(`LQOpenLoopSolver::Solve`) over exact rational arithmetic.

Modelling conventions:

* Eigen matrices and vectors of `float` become `Matrix (Fin r) (Fin c) ℚ`
  and `Fin d → ℚ`; the claims under study are stated "in exact
  arithmetic", so ℚ replaces floating point.
* `Eigen::LLT::solve` (Cholesky) and `Eigen::HouseholderQR::solve`, applied
  by the C++ code to an invertible matrix `A` and right-hand side `b`,
  compute `A⁻¹ * b` exactly; both are embedded as multiplication by
  `cinv A`, a computable matrix inverse (`cinv A = A⁻¹`, and `cinv A = 0`
  when `A` is singular, matching Mathlib's `Matrix.inv` convention).
  The cached factorisations (`chol_Rs_`, `qr_capital_lambdas_`) carry no
  information beyond the factored matrix, so re-applying `cinv` to the
  same matrix models the cached re-solves faithfully.
* `glog` `CHECK` failures abort the process; the two up-front size checks
  of `Solve` (lines 78-79) are embedded separately as
  `SolveUpFrontChecks` over the raw input sizes, while the in-pass
  `CHECK(control_iter != quad[ii].control.end())` is modelled by reading
  the (optional) diagonal control entry through `diagControl`, with a
  zero-cost default that is only reachable on inputs the C++ code would
  abort on.
* The fixed construction parameters of the solver object
  (`num_time_steps_`, `dynamics_->XDim()`, `dynamics_->NumPlayers()`,
  `dynamics_->UDim(i)`) become the parameters `T`, `n`, `N`, `md i`.
* The time-indexed input vectors become total functions `ℕ → _`; the
  solver only ever reads indices `< T`.
-/

open Matrix

set_option autoImplicit false

namespace ilqgames

/-- Rectangular matrix of rationals, `r` rows and `c` columns. -/
abbrev Mat (r c : ℕ) : Type := Matrix (Fin r) (Fin c) ℚ

/-- Vector of rationals of dimension `d`. -/
abbrev Vec (d : ℕ) : Type := Fin d → ℚ

/-- Computable matrix inverse over ℚ: `(det A)⁻¹ • adjugate A`. Agrees
with Mathlib's (noncomputable) `Matrix.inv`, hence equals the true
inverse for invertible `A` and the zero matrix for singular `A`. -/
def cinv {d : ℕ} (A : Mat d d) : Mat d d := (A.det)⁻¹ • A.adjugate

theorem cinv_eq_inv {d : ℕ} (A : Mat d d) : cinv A = A⁻¹ := by
  rw [Matrix.inv_def, Ring.inverse_eq_inv]
  rfl

/-- One `hess`/`grad` pair of `QuadraticCostApproximation`
(`SingleCostApproximation` in `quadratic_cost_approximation.h`). -/
structure SingleCostApproximation (d : ℕ) where
  hess : Mat d d
  grad : Vec d

/-- Per-time, per-agent quadratic cost bundle. The C++ `control` member is
a `PlayerMap<SingleCostApproximation>` (a map keyed by player index that
may or may not contain each key); it is embedded as an `Option`-valued
function on player indices. -/
structure QuadraticCostApproximation (n N : ℕ) (md : Fin N → ℕ) where
  state : SingleCostApproximation n
  control : (j : Fin N) → Option (SingleCostApproximation (md j))

/-- Per-time linearization of the dynamics: `A` (`n × n`) and one `B_i`
(`n × md i`) per player. -/
structure LinearDynamicsApproximation (n N : ℕ) (md : Fin N → ℕ) where
  A : Mat n n
  Bs : (i : Fin N) → Mat n (md i)

/-- Time-indexed sequence of linearizations. -/
abbrev LinSeq (n N : ℕ) (md : Fin N → ℕ) : Type :=
  ℕ → LinearDynamicsApproximation n N md

/-- Time-indexed, then player-indexed sequence of quadraticizations. -/
abbrev QuadSeq (n N : ℕ) (md : Fin N → ℕ) : Type :=
  ℕ → (i : Fin N) → QuadraticCostApproximation n N md

/-- Affine state-feedback strategy of one player: feedback gains `Ps` and
feedforward terms `alphas` (`utils/strategy.h`). -/
structure Strategy (xdim udim : ℕ) where
  Ps : List (Mat udim xdim)
  alphas : List (Vec udim)

variable {n N : ℕ} {md : Fin N → ℕ}

/-- The diagonal control-cost entry `quad[ii].control.find(ii)->second`
read by `Solve` (line 108). The C++ code `CHECK`s that the entry exists;
a missing entry is modelled by a zero default. -/
def diagControl (quad : QuadSeq n N md) (k : ℕ) (i : Fin N) :
    SingleCostApproximation (md i) :=
  ((quad k i).control i).getD ⟨0, 0⟩

/-- `warped_Bs_[kk][ii] = chol_Rs_[kk][ii].solve(lin.Bs[ii].transpose())`
(line 112): `R_{ii,k}⁻¹ · B_{i,k}ᵀ` in exact arithmetic. -/
def warped_Bs (lin : LinSeq n N md) (quad : QuadSeq n N md) (k : ℕ) (i : Fin N) :
    Mat (md i) n :=
  cinv (diagControl quad k i).hess * ((lin k).Bs i)ᵀ

/-- `warped_rs_[kk][ii] = chol_Rs_[kk][ii].solve(control_iter->second.grad)`
(line 113): `R_{ii,k}⁻¹ · r_{ii,k}` in exact arithmetic. -/
def warped_rs (quad : QuadSeq n N md) (k : ℕ) (i : Fin N) : Vec (md i) :=
  cinv (diagControl quad k i).hess *ᵥ (diagControl quad k i).grad

/-- The coupling matrix accumulated at lines 105-115:
`I + Σ_i Bs[i] * warped_Bs[k][i] * Mnext[i]`, with `Mnext` the
value Hessians already computed for time `k+1`. -/
def capital_lambda_from (lin : LinSeq n N md) (quad : QuadSeq n N md)
    (k : ℕ) (Mnext : Fin N → Mat n n) : Mat n n :=
  1 + ∑ i : Fin N, (lin k).Bs i * warped_Bs lin quad k i * Mnext i

/-- Backward-pass value Hessians, indexed by distance `j` from the final
time step: `MsAux … j i` is the slot `Ms_[T-1-j][ii]`. `j = 0` is the
terminal seed of lines 90-93; the successor case is the update of
lines 122-124 at time `kk = T-2-j`. -/
def MsAux (lin : LinSeq n N md) (quad : QuadSeq n N md) (T : ℕ) :
    ℕ → Fin N → Mat n n
  | 0 => fun i => (quad (T - 1) i).state.hess
  | j + 1 => fun i =>
      (quad (T - 2 - j) i).state.hess +
        ((lin (T - 2 - j)).A)ᵀ * MsAux lin quad T j i *
          (cinv (capital_lambda_from lin quad (T - 2 - j) (MsAux lin quad T j)) *
            (lin (T - 2 - j)).A)

/-- The workspace slot `Ms_[k][ii]` after the backward pass. -/
def Ms (lin : LinSeq n N md) (quad : QuadSeq n N md) (T : ℕ) (k : ℕ) :
    Fin N → Mat n n :=
  MsAux lin quad T (T - 1 - k)

/-- The cached coupling matrix `capital_lambdas_[k]`, built from
`Ms_[k+1]` (line 114) and reused through `qr_capital_lambdas_[k]` in the
rest of the backward pass and in the forward pass. -/
def capital_lambdas (lin : LinSeq n N md) (quad : QuadSeq n N md) (T : ℕ)
    (k : ℕ) : Mat n n :=
  capital_lambda_from lin quad k (Ms lin quad T (k + 1))

/-- The intermediary vector of lines 127-131:
`-Σ_j Bs[j] * (warped_Bs[k][j] * mnext + warped_rs[k][j])`, where `mnext`
is `ms_[k+1][ii]` for the player `ii` being updated. -/
def backInter (lin : LinSeq n N md) (quad : QuadSeq n N md) (k : ℕ)
    (mnext : Vec n) : Vec n :=
  -∑ j : Fin N, (lin k).Bs j *ᵥ (warped_Bs lin quad k j *ᵥ mnext + warped_rs quad k j)

/-- Backward-pass value gradients, indexed by distance `j` from the final
time step: `msAux … j i` is the slot `ms_[T-1-j][ii]`. `j = 0` is the
terminal seed of line 91; the successor case is the update of
lines 127-137 at time `kk = T-2-j` (note `next_quad` = `quad (kk+1)`). -/
def msAux (lin : LinSeq n N md) (quad : QuadSeq n N md) (T : ℕ) :
    ℕ → Fin N → Vec n
  | 0 => fun i => (quad (T - 1) i).state.grad
  | j + 1 => fun i =>
      (quad ((T - 2 - j) + 1) i).state.grad +
        ((lin (T - 2 - j)).A)ᵀ *ᵥ
          (msAux lin quad T j i +
            MsAux lin quad T j i *ᵥ
              (cinv (capital_lambda_from lin quad (T - 2 - j) (MsAux lin quad T j)) *ᵥ
                backInter lin quad (T - 2 - j) (msAux lin quad T j i)))

/-- The workspace slot `ms_[k][ii]` after the backward pass. -/
def ms (lin : LinSeq n N md) (quad : QuadSeq n N md) (T : ℕ) (k : ℕ) :
    Fin N → Vec n :=
  msAux lin quad T (T - 1 - k)

/-- The forward-pass state trajectory of lines 141-159: `x_star … k` is
the value of the C++ variable `x_star` after `k` loop iterations
(`x_star … 0 = x0`; iteration `k` solves
`capital_lambdas_[k] · x = A_k · x_star - Σ_i Bs[i] (warped_Bs[k][i] · ms_[k+1][i] + warped_rs[k][i])`). -/
def x_star (lin : LinSeq n N md) (quad : QuadSeq n N md) (T : ℕ) (x0 : Vec n) :
    ℕ → Vec n
  | 0 => x0
  | k + 1 =>
      cinv (capital_lambdas lin quad T k) *ᵥ
        ((lin k).A *ᵥ x_star lin quad T x0 k -
          ∑ i : Fin N, (lin k).Bs i *ᵥ
            (warped_Bs lin quad k i *ᵥ ms lin quad T (k + 1) i + warped_rs quad k i))

/-- The feedforward term written to `strategies[ii].alphas[kk]` at
lines 162-166, using the state `x_star` already updated for this step. -/
def alpha (lin : LinSeq n N md) (quad : QuadSeq n N md) (T : ℕ) (x0 : Vec n)
    (i : Fin N) (k : ℕ) : Vec (md i) :=
  warped_Bs lin quad k i *ᵥ
      (Ms lin quad T (k + 1) i *ᵥ x_star lin quad T x0 (k + 1) +
        ms lin quad T (k + 1) i) +
    warped_rs quad k i

/-- Modelled from the spec: the `Strategy` constructor invoked at
lines 85-87 is declared in `ilqgames/utils/strategy.h`, which is not
among the sources; per the spec (§3 "Strategy[i]", §4.1) a strategy
holds one zero feedback gain and one feedforward term for each
`k ∈ [0, T-2]`, i.e. `T - 1` zero-initialised pairs. -/
def Strategy.init (T xdim udim : ℕ) : Strategy xdim udim :=
  ⟨List.replicate (T - 1) 0, List.replicate (T - 1) 0⟩

/-- Player `i`'s strategy as returned by `Solve`: the zero-initialised
strategy with `alphas[kk]` overwritten for every `kk ∈ [0, T-2]` by the
forward pass (lines 162-166). The `Ps` are never touched (line 83). -/
def SolveStrategy (lin : LinSeq n N md) (quad : QuadSeq n N md) (T : ℕ)
    (x0 : Vec n) (i : Fin N) : Strategy n (md i) :=
  ⟨(Strategy.init T n (md i)).Ps, (List.range (T - 1)).map (alpha lin quad T x0 i)⟩

/-- `LQOpenLoopSolver::Solve`: the player-indexed list of strategies
built at lines 84-87 and returned at line 176, with each entry tagged by
its player index (players have differing control dimensions `md i`). -/
def Solve (lin : LinSeq n N md) (quad : QuadSeq n N md) (T : ℕ) (x0 : Vec n) :
    List ((i : Fin N) × Strategy n (md i)) :=
  (List.finRange N).map fun i => ⟨i, SolveStrategy lin quad T x0 i⟩

/-- The up-front input validation of `Solve` (lines 78-79): exactly two
`CHECK_EQ`s, on `linearization.size()` and `quadraticization.size()`.
The remaining size data of the call (the per-time-step agent counts and
the dimension of `x0`) is received but never compared up front. -/
def SolveUpFrontChecks (T : ℕ) (linLen quadLen : ℕ)
    (quadInnerLens : List ℕ) (x0Len : ℕ) : Bool :=
  (linLen == T) && (quadLen == T)

/-- The four input constraints declared by the spec (§4.1). -/
def DeclaredInputConstraints (T N n : ℕ) (linLen quadLen : ℕ)
    (quadInnerLens : List ℕ) (x0Len : ℕ) : Prop :=
  linLen = T ∧ quadLen = T ∧ (∀ L ∈ quadInnerLens, L = N) ∧ x0Len = n

instance (T N n linLen quadLen : ℕ) (quadInnerLens : List ℕ) (x0Len : ℕ) :
    Decidable (DeclaredInputConstraints T N n linLen quadLen quadInnerLens x0Len) := by
  unfold DeclaredInputConstraints
  infer_instance

end ilqgames

namespace ilqgames

variable {n N : ℕ} {md : Fin N → ℕ}

/-! ## Concrete example inputs used by witnesses and counterexamples -/

/-- Single-agent scalar control dimension. -/
abbrev exMd1 : Fin 1 → ℕ := fun _ => 1

/-- Scalar single-agent dynamics: `A = 1`, `B = 1` at every step. -/
def exLin1 : LinSeq 1 1 exMd1 := fun _ => ⟨1, fun _ => 1⟩

/-- Scalar single-agent costs: `Q = 1`, `l = 0`, `R = 1`, `r = 0`. -/
def exQuad1 : QuadSeq 1 1 exMd1 := fun _ _ => ⟨⟨1, 0⟩, fun _ => some ⟨1, 0⟩⟩

/-- Scalar initial state `x0 = 1`. -/
def exX1 : Vec 1 := fun _ => 1


/-- Scalar single-agent costs with a pure linear control penalty:
`Q = 0`, `l = 0`, `R = 1`, `r = 1`. -/
def exQuadC7 : QuadSeq 1 1 exMd1 := fun _ _ => ⟨⟨0, 0⟩, fun _ => some ⟨1, fun _ => 1⟩⟩


/-- Two-agent, two-dimensional control dimensions for the C8 example. -/
abbrev exMdC8 : Fin 2 → ℕ := fun _ => 2

/-- Identity dynamics for two agents in state dimension 2. -/
def exLinC8 : LinSeq 2 2 exMdC8 := fun _ => ⟨1, fun _ => 1⟩

/-- Symmetric but non-commuting state Hessians (`diag(1,2)` for agent 0
and the antidiagonal for agent 1), identity control Hessians. -/
def exQuadC8 : QuadSeq 2 2 exMdC8 := fun _ i =>
  ⟨⟨if i = 0 then !![1, 0; 0, 2] else !![0, 1; 1, 0], 0⟩, fun _ => some ⟨1, 0⟩⟩


/-- Two scalar-control agents. -/
abbrev exMd2 : Fin 2 → ℕ := fun _ => 1

/-- Scalar two-agent dynamics: `A = 1`, `B_0 = B_1 = 1`. -/
def exLin2 : LinSeq 1 2 exMd2 := fun _ => ⟨1, fun _ => 1⟩

/-- Two-agent costs whose control map holds `R = 1, r = 0` for every key. -/
def exQuadC9a : QuadSeq 1 2 exMd2 := fun _ _ => ⟨⟨1, 0⟩, fun _ => some ⟨1, 0⟩⟩

/-- Same as `exQuadC9a` on the state and diagonal control entries, but
with different cross-control entries (`R_{ij} = 5`, `r_{ij} = 7` for
`j ≠ i`). -/
def exQuadC9b : QuadSeq 1 2 exMd2 := fun _ i =>
  ⟨⟨1, 0⟩, fun j => if j = i then some ⟨1, 0⟩ else some ⟨5, fun _ => 7⟩⟩

/-- Same as `exQuad1` except for the state gradient at time `0`. -/
def exQuadC10b : QuadSeq 1 1 exMd1 := fun k _ =>
  ⟨⟨1, if k = 0 then (fun _ => 9) else 0⟩, fun _ => some ⟨1, 0⟩⟩

/-! ## Claim C1: backward-pass coupling matrix and value-Hessian update -/

/-- C1: in the backward pass of `Solve`, for every time step `k ≤ T-2`,
the coupling matrix is `Λ_k = I + Σ_i B_{i,k} · warpedB[k][i] · M[k+1][i]`
with `warpedB[k][i] = R_{ii,k}⁻¹ · B_{i,k}ᵀ` (the Cholesky-factor solve,
exact over ℚ), and each player's value Hessian is updated as
`M[k][i] = Q_{i,k} + A_kᵀ · M[k+1][i] · (Λ_k⁻¹ · A_k)` with `Q_{i,k}`
taken from `quadraticization[k][i].state.hess`. -/
theorem C1_backward_coupling_and_M (T : ℕ) (lin : LinSeq n N md)
    (quad : QuadSeq n N md) (k : ℕ) (hk : k + 1 < T) :
    (∀ i : Fin N,
        warped_Bs lin quad k i = cinv (diagControl quad k i).hess * ((lin k).Bs i)ᵀ)
    ∧ capital_lambdas lin quad T k =
        1 + ∑ i : Fin N, (lin k).Bs i * warped_Bs lin quad k i * Ms lin quad T (k + 1) i
    ∧ ∀ i : Fin N,
        Ms lin quad T k i =
          (quad k i).state.hess +
            ((lin k).A)ᵀ * Ms lin quad T (k + 1) i *
              (cinv (capital_lambdas lin quad T k) * (lin k).A) := by
  refine ⟨fun i => rfl, rfl, fun i => ?_⟩
  have e1 : T - 1 - k = (T - 2 - k) + 1 := by omega
  have e2 : T - 2 - (T - 2 - k) = k := by omega
  have e3 : T - 1 - (k + 1) = T - 2 - k := by omega
  simp only [Ms, capital_lambdas, e1, e3, MsAux, e2]

/-- Closed witness for C1 at `T = 2`, `k = 0`, player `0`, scalar
single-agent data. -/
theorem C1_witness :
    (0 + 1 < 2)
    ∧ Ms exLin1 exQuad1 2 0 0 =
        (exQuad1 0 0).state.hess +
          ((exLin1 0).A)ᵀ * Ms exLin1 exQuad1 2 (0 + 1) 0 *
            (cinv (capital_lambdas exLin1 exQuad1 2 0) * (exLin1 0).A) :=
  ⟨by norm_num, (C1_backward_coupling_and_M 2 exLin1 exQuad1 0 (by norm_num)).2.2 0⟩


/-! ## Claim C2: forward pass -/

/-- C2: in the forward pass of `Solve`, starting from `x* = x0`, at every
step `k ≤ T-2` the intermediary is
`ι = A_k · x* − Σ_i B_{i,k} · (warpedB[k][i] · m[k+1][i] + warpedR[k][i])`,
the state is updated to `x* = Λ_k⁻¹ · ι` using the coupling matrix cached
by the backward pass, and each player's feedforward term is
`α_{i,k} = warpedB[k][i] · (M[k+1][i] · x* + m[k+1][i]) + warpedR[k][i]`
with `x*` the already-updated state. -/
theorem C2_forward_pass (T : ℕ) (lin : LinSeq n N md) (quad : QuadSeq n N md)
    (x0 : Vec n) (k : ℕ) (hk : k + 1 < T) :
    x_star lin quad T x0 0 = x0
    ∧ x_star lin quad T x0 (k + 1) =
        cinv (capital_lambdas lin quad T k) *ᵥ
          ((lin k).A *ᵥ x_star lin quad T x0 k -
            ∑ i : Fin N, (lin k).Bs i *ᵥ
              (warped_Bs lin quad k i *ᵥ ms lin quad T (k + 1) i + warped_rs quad k i))
    ∧ ∀ i : Fin N,
        alpha lin quad T x0 i k =
          warped_Bs lin quad k i *ᵥ
              (Ms lin quad T (k + 1) i *ᵥ x_star lin quad T x0 (k + 1) +
                ms lin quad T (k + 1) i) +
            warped_rs quad k i :=
  ⟨rfl, rfl, fun _ => rfl⟩

/-- Closed witness for C2 at `T = 2`, `k = 0`, scalar single-agent data. -/
theorem C2_witness :
    (0 + 1 < 2)
    ∧ x_star exLin1 exQuad1 2 exX1 (0 + 1) =
        cinv (capital_lambdas exLin1 exQuad1 2 0) *ᵥ
          ((exLin1 0).A *ᵥ x_star exLin1 exQuad1 2 exX1 0 -
            ∑ i : Fin 1, (exLin1 0).Bs i *ᵥ
              (warped_Bs exLin1 exQuad1 0 i *ᵥ ms exLin1 exQuad1 2 (0 + 1) i +
                warped_rs exQuad1 0 i)) :=
  ⟨by norm_num, (C2_forward_pass 2 exLin1 exQuad1 exX1 0 (by norm_num)).2.1⟩

/-! ## Claim C3: backward-pass value-gradient update and cost indexing -/

/-- C3: in the backward pass, for every `k ≤ T-2` and player `i`, the
value-gradient update reads the state gradient from the NEXT step's cost,
`m[k][i] = quadraticization[k+1][i].state.grad + A_kᵀ · (m[k+1][i] + M[k+1][i] · (Λ_k⁻¹ · ι_i))`
with `ι_i = −Σ_j B_{j,k} · (warpedB[k][j] · m[k+1][i] + warpedR[k][j])`,
while the value-Hessian update reads the state Hessian from the CURRENT
step, `quadraticization[k][i].state.hess`. -/
theorem C3_backward_m_update (T : ℕ) (lin : LinSeq n N md)
    (quad : QuadSeq n N md) (k : ℕ) (hk : k + 1 < T) :
    ∀ i : Fin N,
      ms lin quad T k i =
          (quad (k + 1) i).state.grad +
            ((lin k).A)ᵀ *ᵥ
              (ms lin quad T (k + 1) i +
                Ms lin quad T (k + 1) i *ᵥ
                  (cinv (capital_lambdas lin quad T k) *ᵥ
                    backInter lin quad k (ms lin quad T (k + 1) i)))
      ∧ backInter lin quad k (ms lin quad T (k + 1) i) =
          -∑ j : Fin N, (lin k).Bs j *ᵥ
            (warped_Bs lin quad k j *ᵥ ms lin quad T (k + 1) i + warped_rs quad k j)
      ∧ Ms lin quad T k i =
          (quad k i).state.hess +
            ((lin k).A)ᵀ * Ms lin quad T (k + 1) i *
              (cinv (capital_lambdas lin quad T k) * (lin k).A) := by
  have e1 : T - 1 - k = (T - 2 - k) + 1 := by omega
  have e2 : T - 2 - (T - 2 - k) = k := by omega
  have e3 : T - 1 - (k + 1) = T - 2 - k := by omega
  refine fun i => ⟨?_, rfl, ?_⟩
  · simp only [ms, Ms, capital_lambdas, e1, e3, msAux, e2]
  · simp only [Ms, capital_lambdas, e1, e3, MsAux, e2]

/-- Closed witness for C3 at `T = 2`, `k = 0`, player `0`, scalar
single-agent data. -/
theorem C3_witness :
    (0 + 1 < 2)
    ∧ ms exLin1 exQuad1 2 0 0 =
        (exQuad1 (0 + 1) 0).state.grad +
          ((exLin1 0).A)ᵀ *ᵥ
            (ms exLin1 exQuad1 2 (0 + 1) 0 +
              Ms exLin1 exQuad1 2 (0 + 1) 0 *ᵥ
                (cinv (capital_lambdas exLin1 exQuad1 2 0) *ᵥ
                  backInter exLin1 exQuad1 0 (ms exLin1 exQuad1 2 (0 + 1) 0))) :=
  ⟨by norm_num, (C3_backward_m_update 2 exLin1 exQuad1 0 (by norm_num) 0).1⟩

/-! ## Claim C4: terminal seeding -/

/-- C4: before the backward pass begins, `Solve` seeds the terminal value
terms of every player directly from the terminal-time quadratic cost:
`M[T-1][i] = quadraticization[T-1][i].state.hess` and
`m[T-1][i] = quadraticization[T-1][i].state.grad`. The right-hand sides
read only the `state` component of `quadraticization (T-1)`, so no
control term of the terminal step contributes. -/
theorem C4_terminal_seed (T : ℕ) (lin : LinSeq n N md)
    (quad : QuadSeq n N md) :
    ∀ i : Fin N,
      Ms lin quad T (T - 1) i = (quad (T - 1) i).state.hess
      ∧ ms lin quad T (T - 1) i = (quad (T - 1) i).state.grad := by
  intro i
  constructor <;> simp only [Ms, ms, Nat.sub_self, MsAux, msAux]

/-! ## Claim C5: shape of the returned strategies -/

/-- C5: the list returned by `Solve` has length `N` (one `Strategy` per
player, tagged with its index), and player `i`'s strategy has exactly
`T-1` feedforward terms (each of dimension `md i` by its type
`Vec (md i)`) with all feedback gains the `md i × n` zero matrix.
The `T-1` strategy horizon comes from the spec-modelled `Strategy.init`
(the `Strategy` constructor is not among the sources). -/
theorem C5_shapes (T : ℕ) (lin : LinSeq n N md) (quad : QuadSeq n N md)
    (x0 : Vec n) :
    (Solve lin quad T x0).length = N
    ∧ Solve lin quad T x0 =
        (List.finRange N).map (fun i => ⟨i, SolveStrategy lin quad T x0 i⟩)
    ∧ ∀ i : Fin N,
        (SolveStrategy lin quad T x0 i).alphas.length = T - 1
        ∧ (SolveStrategy lin quad T x0 i).Ps =
            List.replicate (T - 1) (0 : Mat (md i) n) := by
  refine ⟨?_, rfl, fun i => ⟨?_, rfl⟩⟩
  · simp [Solve]
  · simp [SolveStrategy]

/-! ## Claim C6: up-front input checking -/

/-- C6 counterexample: with `T = 2`, `N = 1`, `n = 1`, an input whose
outer sizes are both `2` passes the up-front checks of `Solve` even
though its single per-step agent count is `0 ≠ N` and its `x0` has
dimension `5 ≠ n`; so `Solve` does not check all four declared
constraints up front, refuting the claim at this concrete input. -/
theorem C6_counterexample :
    SolveUpFrontChecks 2 2 2 [0] 5 = true
    ∧ ¬ DeclaredInputConstraints 2 1 1 2 2 [0] 5 := by
  decide

/-- C6 amended: `Solve` checks exactly two of the four declared input
constraints up front — `len(linearization) == T` and
`len(quadraticization) == T` — and fails fatally when either of those is
violated; the per-step agent counts and the dimension of `x0` are not
checked. -/
theorem C6_amended_two_checks (T linLen quadLen : ℕ)
    (quadInnerLens : List ℕ) (x0Len : ℕ) :
    SolveUpFrontChecks T linLen quadLen quadInnerLens x0Len = true
      ↔ (linLen = T ∧ quadLen = T) := by
  simp [SolveUpFrontChecks]


/-! ## Claim C7: dependence of the outputs on the initial state -/

/-- The forward-pass state is affine in `x0`: it maps affine combinations
of initial states (`a + b = 1`) to affine combinations of trajectories.
All backward-pass quantities are independent of `x0`. -/
theorem x_star_affine (T : ℕ) (lin : LinSeq n N md) (quad : QuadSeq n N md)
    (a b : ℚ) (hab : a + b = 1) (x1 x2 : Vec n) (k : ℕ) :
    x_star lin quad T (a • x1 + b • x2) k =
      a • x_star lin quad T x1 k + b • x_star lin quad T x2 k := by
  induction k with
  | zero => rfl
  | succ k ih =>
      have key : ∀ (p q c : Vec n), a • p + b • q - c = a • (p - c) + b • (q - c) := by
        intro p q c
        have h : a • c + b • c = c := by rw [← add_smul, hab, one_smul]
        calc a • p + b • q - c = a • p + b • q - (a • c + b • c) := by rw [h]
          _ = a • (p - c) + b • (q - c) := by rw [smul_sub, smul_sub]; abel
      simp only [x_star, ih, Matrix.mulVec_add, Matrix.mulVec_smul, key]

/-- C7 counterexample: the alpha outputs of `Solve` are NOT linear in the
initial state for arbitrary scalars `a`, `b`. With scalar single-agent
data `A = B = R = 1`, `Q = l = 0`, `r = 1` (a well-posed input) and
`a = b = 0`, the left side evaluates `Solve` at `x0 = 0`, whose alpha is
the nonzero feedforward `warpedR = 1`, while the right side is `0`. -/
theorem C7_counterexample :
    alpha exLin1 exQuadC7 2 ((0 : ℚ) • exX1 + (0 : ℚ) • exX1) 0 0 ≠
      (0 : ℚ) • alpha exLin1 exQuadC7 2 exX1 0 0 +
        (0 : ℚ) • alpha exLin1 exQuadC7 2 exX1 0 0 := by
  intro h
  have h0 := congrFun h 0
  simp [alpha, warped_Bs, warped_rs, diagControl, Ms, ms, MsAux, msAux,
        x_star, capital_lambdas, capital_lambda_from, backInter, cinv,
        exLin1, exQuadC7, exX1] at h0

/-- C7 amended: the alpha outputs of `Solve` are affine (not linear) in
the initial state: for every fixed linearization and quadraticization and
all scalars `a`, `b` with `a + b = 1`,
`solve(lin, quad, a·x0_1 + b·x0_2)` equals
`a·solve(lin, quad, x0_1) + b·solve(lin, quad, x0_2)` on the alpha
outputs, exactly, in exact arithmetic. -/
theorem C7_amended_alpha_affine (T : ℕ) (lin : LinSeq n N md)
    (quad : QuadSeq n N md) (a b : ℚ) (hab : a + b = 1) (x1 x2 : Vec n)
    (i : Fin N) (k : ℕ) (hk : k + 1 < T) :
    alpha lin quad T (a • x1 + b • x2) i k =
      a • alpha lin quad T x1 i k + b • alpha lin quad T x2 i k := by
  have key : ∀ {d : ℕ} (p q c : Vec d), (a • p + b • q) + c = a • (p + c) + b • (q + c) := by
    intro d p q c
    have h : a • c + b • c = c := by rw [← add_smul, hab, one_smul]
    calc a • p + b • q + c = a • p + b • q + (a • c + b • c) := by rw [h]
      _ = a • (p + c) + b • (q + c) := by rw [smul_add, smul_add]; abel
  have hx := x_star_affine T lin quad a b hab x1 x2 (k + 1)
  simp only [alpha, hx, Matrix.mulVec_add, Matrix.mulVec_smul, key]

/-- Closed witness for C7 (amended) at `a = 1`, `b = 0`, `T = 2`, `k = 0`,
scalar single-agent data. -/
theorem C7_witness :
    ((1 : ℚ) + 0 = 1 ∧ 0 + 1 < 2)
    ∧ alpha exLin1 exQuad1 2 ((1 : ℚ) • exX1 + (0 : ℚ) • exX1) 0 0 =
        (1 : ℚ) • alpha exLin1 exQuad1 2 exX1 0 0 +
          (0 : ℚ) • alpha exLin1 exQuad1 2 exX1 0 0 :=
  ⟨⟨by norm_num, by norm_num⟩,
    C7_amended_alpha_affine 2 exLin1 exQuad1 1 0 (by norm_num) exX1 exX1 0 0 (by norm_num)⟩


/-! ## Claim C8: symmetry of the backward-pass value Hessians -/

theorem cinv_transpose {d : ℕ} (A : Mat d d) : (cinv A)ᵀ = cinv Aᵀ := by
  rw [cinv_eq_inv, cinv_eq_inv, Matrix.transpose_nonsing_inv]

/-- If `Lᵀ` and `M` commute past each other (`Lᵀ * M = M * L`), the same
holds for the inverses: `(Lᵀ)⁻¹ * M = M * L⁻¹` (with the zero-inverse
convention when `L` is singular). -/
theorem cinv_commute_of_transpose_mul {d : ℕ} (L M : Mat d d)
    (h : Lᵀ * M = M * L) : cinv Lᵀ * M = M * cinv L := by
  rw [cinv_eq_inv, cinv_eq_inv]
  by_cases hu : IsUnit L.det
  · have hut : IsUnit Lᵀ.det := by rwa [Matrix.det_transpose]
    calc Lᵀ⁻¹ * M = Lᵀ⁻¹ * M * (L * L⁻¹) := by
          rw [Matrix.mul_nonsing_inv _ hu, mul_one]
      _ = Lᵀ⁻¹ * (M * L) * L⁻¹ := by simp only [mul_assoc]
      _ = Lᵀ⁻¹ * (Lᵀ * M) * L⁻¹ := by rw [h]
      _ = Lᵀ⁻¹ * Lᵀ * (M * L⁻¹) := by simp only [mul_assoc]
      _ = M * L⁻¹ := by rw [Matrix.nonsing_inv_mul _ hut, one_mul]
  · have hut : ¬ IsUnit Lᵀ.det := by rwa [Matrix.det_transpose]
    rw [Matrix.nonsing_inv_apply_not_isUnit _ hu,
        Matrix.nonsing_inv_apply_not_isUnit _ hut]
    simp

/-- One backward step preserves symmetry when the coupling matrix has the
single-agent form `I + S * M` with `S` and `M` symmetric. -/
theorem M_update_symm {d : ℕ} (A S M Q : Mat d d)
    (hS : Sᵀ = S) (hM : Mᵀ = M) (hQ : Qᵀ = Q) :
    (Q + Aᵀ * M * (cinv (1 + S * M) * A))ᵀ =
      Q + Aᵀ * M * (cinv (1 + S * M) * A) := by
  have hL : (1 + S * M)ᵀ * M = M * (1 + S * M) := by
    rw [Matrix.transpose_add, Matrix.transpose_one, Matrix.transpose_mul, hS, hM]
    noncomm_ring
  have hcomm := cinv_commute_of_transpose_mul (1 + S * M) M hL
  rw [Matrix.transpose_add, hQ, Matrix.transpose_mul, Matrix.transpose_mul,
      Matrix.transpose_mul, Matrix.transpose_transpose, hM, cinv_transpose]
  rw [show Aᵀ * (cinv (1 + S * M)ᵀ) * (M * A) =
        Aᵀ * (cinv (1 + S * M)ᵀ * M) * A by simp only [mul_assoc]]
  rw [hcomm]
  simp only [mul_assoc]

/-- Every state Hessian of the C8 example input is symmetric. -/
theorem exQuadC8_state_hess_symm (k : ℕ) (i : Fin 2) :
    ((exQuadC8 k i).state.hess)ᵀ = (exQuadC8 k i).state.hess := by
  fin_cases i <;>
    · ext a b
      fin_cases a <;> fin_cases b <;> simp [exQuadC8]

theorem exQuadC8_control_hess_symm (k : ℕ) (i : Fin 2) :
    ((diagControl exQuadC8 k i).hess)ᵀ = (diagControl exQuadC8 k i).hess := by
  simp [diagControl, exQuadC8]

/-- C8 counterexample: with two agents (`N = 2`, `n = 2`, `T = 3`),
identity dynamics (`A = B_i = I`), identity control Hessians `R = I` and
symmetric state Hessians `Q_0 = diag(1,2)`, `Q_1 = antidiag(1,1)` — a
well-posed input with every `Q_{i,k}` and `R_{ii,k}` symmetric, by
`exQuadC8_state_hess_symm` and `exQuadC8_control_hess_symm` — the
backward-pass value Hessian `M[1][0]` is NOT symmetric: its `(0,1)` entry
is `-1/5` while its `(1,0)` entry is `-2/5`. -/
theorem C8_counterexample :
    (Ms exLinC8 exQuadC8 3 1 0)ᵀ ≠ Ms exLinC8 exQuadC8 3 1 0 := by
  have h01 : Ms exLinC8 exQuadC8 3 1 0 0 1 = -1/5 := by
    show MsAux exLinC8 exQuadC8 3 1 0 0 1 = -1/5
    simp [MsAux, capital_lambda_from, warped_Bs, warped_rs, diagControl, cinv,
          exLinC8, exQuadC8, Fin.sum_univ_two, Matrix.det_fin_two,
          Matrix.adjugate_fin_two, Matrix.add_apply, Matrix.mul_apply,
          Matrix.smul_apply, Matrix.one_apply, Matrix.transpose_apply]
    norm_num
  have h10 : Ms exLinC8 exQuadC8 3 1 0 1 0 = -2/5 := by
    show MsAux exLinC8 exQuadC8 3 1 0 1 0 = -2/5
    simp [MsAux, capital_lambda_from, warped_Bs, warped_rs, diagControl, cinv,
          exLinC8, exQuadC8, Fin.sum_univ_two, Matrix.det_fin_two,
          Matrix.adjugate_fin_two, Matrix.add_apply, Matrix.mul_apply,
          Matrix.smul_apply, Matrix.one_apply, Matrix.transpose_apply]
    norm_num
  intro h
  have hEq := congrFun (congrFun h 0) 1
  rw [Matrix.transpose_apply, h01, h10] at hEq
  norm_num at hEq

/-- C8 amended: with a single agent (`N = 1`), if every state Hessian
`Q_{i,k}` and every own-control Hessian `R_{ii,k}` is symmetric then every
backward-pass value Hessian `M[k][i]` is symmetric, exactly, in exact
arithmetic; with `N ≥ 2` agents symmetry can fail (see the
counterexample). -/
theorem C8_amended_single_agent_symm {n : ℕ} {md1 : Fin 1 → ℕ} (T : ℕ)
    (lin : LinSeq n 1 md1) (quad : QuadSeq n 1 md1)
    (hQ : ∀ (k : ℕ) (i : Fin 1),
      ((quad k i).state.hess)ᵀ = (quad k i).state.hess)
    (hR : ∀ (k : ℕ) (i : Fin 1),
      ((diagControl quad k i).hess)ᵀ = (diagControl quad k i).hess)
    (k : ℕ) (i : Fin 1) :
    (Ms lin quad T k i)ᵀ = Ms lin quad T k i := by
  suffices h : ∀ (j : ℕ) (i : Fin 1),
      (MsAux lin quad T j i)ᵀ = MsAux lin quad T j i from h _ i
  intro j
  induction j with
  | zero => intro i; exact hQ (T - 1) i
  | succ j ih =>
      intro i
      have hi : i = 0 := Fin.eq_zero i
      subst hi
      show (MsAux lin quad T (j + 1) 0)ᵀ = MsAux lin quad T (j + 1) 0
      have hsum : capital_lambda_from lin quad (T - 2 - j) (MsAux lin quad T j) =
          1 + (lin (T - 2 - j)).Bs 0 * warped_Bs lin quad (T - 2 - j) 0 *
                MsAux lin quad T j 0 := by
        rw [capital_lambda_from, Fin.sum_univ_one]
      have hS : ((lin (T - 2 - j)).Bs 0 * warped_Bs lin quad (T - 2 - j) 0)ᵀ =
          (lin (T - 2 - j)).Bs 0 * warped_Bs lin quad (T - 2 - j) 0 := by
        rw [warped_Bs, Matrix.transpose_mul, Matrix.transpose_mul,
            Matrix.transpose_transpose, cinv_transpose, hR, Matrix.mul_assoc]
      simp only [MsAux, hsum]
      exact M_update_symm ((lin (T - 2 - j)).A)
        ((lin (T - 2 - j)).Bs 0 * warped_Bs lin quad (T - 2 - j) 0)
        (MsAux lin quad T j 0) ((quad (T - 2 - j) 0).state.hess)
        hS (ih 0) (hQ (T - 2 - j) 0)

/-- Closed witness for C8 (amended) on the scalar single-agent data at
`T = 2`, `k = 0`: the symmetry hypotheses are discharged on `exQuad1`,
whose Hessians are all `1`. -/
theorem C8_witness :
    (Ms exLin1 exQuad1 2 0 0)ᵀ = Ms exLin1 exQuad1 2 0 0 :=
  C8_amended_single_agent_symm 2 exLin1 exQuad1
    (fun _ _ => by simp [exQuad1])
    (fun _ _ => by simp [diagControl, exQuad1]) 0 0


/-! ## Congruence of the solver in the quadraticization

The solver reads, of the quadraticization, only: the state Hessians at
times `< T`, the state gradients at times in `[1, T)`, and the diagonal
control entries at times `< T-1`. The following lemmas propagate
agreement on those components through every stage of `Solve`; claims C9
and C10 both follow. -/

theorem diagControl_congr (quad1 quad2 : QuadSeq n N md) (k : ℕ) (i : Fin N)
    (h : (quad1 k i).control i = (quad2 k i).control i) :
    diagControl quad1 k i = diagControl quad2 k i := by
  rw [diagControl, diagControl, h]

theorem warped_Bs_congr (lin : LinSeq n N md) (quad1 quad2 : QuadSeq n N md)
    (k : ℕ) (i : Fin N)
    (h : (quad1 k i).control i = (quad2 k i).control i) :
    warped_Bs lin quad1 k i = warped_Bs lin quad2 k i := by
  rw [warped_Bs, warped_Bs, diagControl_congr quad1 quad2 k i h]

theorem warped_rs_congr (quad1 quad2 : QuadSeq n N md) (k : ℕ) (i : Fin N)
    (h : (quad1 k i).control i = (quad2 k i).control i) :
    warped_rs quad1 k i = warped_rs quad2 k i := by
  rw [warped_rs, warped_rs, diagControl_congr quad1 quad2 k i h]

theorem capital_lambda_from_congr (lin : LinSeq n N md)
    (quad1 quad2 : QuadSeq n N md) (k : ℕ) (Mnext : Fin N → Mat n n)
    (h : ∀ i : Fin N, (quad1 k i).control i = (quad2 k i).control i) :
    capital_lambda_from lin quad1 k Mnext = capital_lambda_from lin quad2 k Mnext := by
  rw [capital_lambda_from, capital_lambda_from]
  congr 1
  exact Finset.sum_congr rfl fun i _ => by
    rw [warped_Bs_congr lin quad1 quad2 k i (h i)]

theorem backInter_congr (lin : LinSeq n N md) (quad1 quad2 : QuadSeq n N md)
    (k : ℕ) (v : Vec n)
    (h : ∀ i : Fin N, (quad1 k i).control i = (quad2 k i).control i) :
    backInter lin quad1 k v = backInter lin quad2 k v := by
  rw [backInter, backInter]
  congr 1
  exact Finset.sum_congr rfl fun i _ => by
    rw [warped_Bs_congr lin quad1 quad2 k i (h i),
        warped_rs_congr quad1 quad2 k i (h i)]

theorem MsAux_congr (T : ℕ) (lin : LinSeq n N md)
    (quad1 quad2 : QuadSeq n N md) (hT : 2 ≤ T)
    (H1 : ∀ k, k < T - 1 → ∀ i : Fin N, (quad1 k i).control i = (quad2 k i).control i)
    (H2 : ∀ k, k < T → ∀ i : Fin N, (quad1 k i).state.hess = (quad2 k i).state.hess) :
    ∀ j : ℕ, MsAux lin quad1 T j = MsAux lin quad2 T j := by
  intro j
  induction j with
  | zero =>
      funext i
      exact H2 (T - 1) (by omega) i
  | succ j ih =>
      funext i
      simp only [MsAux, ih]
      rw [H2 (T - 2 - j) (by omega) i,
          capital_lambda_from_congr lin quad1 quad2 (T - 2 - j)
            (MsAux lin quad2 T j) (H1 (T - 2 - j) (by omega))]

theorem Ms_congr (T : ℕ) (lin : LinSeq n N md)
    (quad1 quad2 : QuadSeq n N md) (hT : 2 ≤ T)
    (H1 : ∀ k, k < T - 1 → ∀ i : Fin N, (quad1 k i).control i = (quad2 k i).control i)
    (H2 : ∀ k, k < T → ∀ i : Fin N, (quad1 k i).state.hess = (quad2 k i).state.hess)
    (k : ℕ) : Ms lin quad1 T k = Ms lin quad2 T k := by
  rw [Ms, Ms, MsAux_congr T lin quad1 quad2 hT H1 H2]

theorem msAux_congr (T : ℕ) (lin : LinSeq n N md)
    (quad1 quad2 : QuadSeq n N md) (hT : 2 ≤ T)
    (H1 : ∀ k, k < T - 1 → ∀ i : Fin N, (quad1 k i).control i = (quad2 k i).control i)
    (H2 : ∀ k, k < T → ∀ i : Fin N, (quad1 k i).state.hess = (quad2 k i).state.hess)
    (H3 : ∀ k, 1 ≤ k → k < T → ∀ i : Fin N, (quad1 k i).state.grad = (quad2 k i).state.grad) :
    ∀ j : ℕ, msAux lin quad1 T j = msAux lin quad2 T j := by
  intro j
  induction j with
  | zero =>
      funext i
      exact H3 (T - 1) (by omega) (by omega) i
  | succ j ih =>
      funext i
      simp only [msAux, ih, MsAux_congr T lin quad1 quad2 hT H1 H2 j]
      rw [H3 ((T - 2 - j) + 1) (by omega) (by omega) i,
          capital_lambda_from_congr lin quad1 quad2 (T - 2 - j)
            (MsAux lin quad2 T j) (H1 (T - 2 - j) (by omega)),
          backInter_congr lin quad1 quad2 (T - 2 - j)
            (msAux lin quad2 T j i) (H1 (T - 2 - j) (by omega))]

theorem ms_congr (T : ℕ) (lin : LinSeq n N md)
    (quad1 quad2 : QuadSeq n N md) (hT : 2 ≤ T)
    (H1 : ∀ k, k < T - 1 → ∀ i : Fin N, (quad1 k i).control i = (quad2 k i).control i)
    (H2 : ∀ k, k < T → ∀ i : Fin N, (quad1 k i).state.hess = (quad2 k i).state.hess)
    (H3 : ∀ k, 1 ≤ k → k < T → ∀ i : Fin N, (quad1 k i).state.grad = (quad2 k i).state.grad)
    (k : ℕ) : ms lin quad1 T k = ms lin quad2 T k := by
  rw [ms, ms, msAux_congr T lin quad1 quad2 hT H1 H2 H3]

theorem capital_lambdas_congr (T : ℕ) (lin : LinSeq n N md)
    (quad1 quad2 : QuadSeq n N md) (hT : 2 ≤ T)
    (H1 : ∀ k, k < T - 1 → ∀ i : Fin N, (quad1 k i).control i = (quad2 k i).control i)
    (H2 : ∀ k, k < T → ∀ i : Fin N, (quad1 k i).state.hess = (quad2 k i).state.hess)
    (k : ℕ) (hk : k < T - 1) :
    capital_lambdas lin quad1 T k = capital_lambdas lin quad2 T k := by
  rw [capital_lambdas, capital_lambdas,
      Ms_congr T lin quad1 quad2 hT H1 H2 (k + 1),
      capital_lambda_from_congr lin quad1 quad2 k
        (Ms lin quad2 T (k + 1)) (H1 k hk)]

theorem x_star_congr (T : ℕ) (lin : LinSeq n N md)
    (quad1 quad2 : QuadSeq n N md) (x0 : Vec n) (hT : 2 ≤ T)
    (H1 : ∀ k, k < T - 1 → ∀ i : Fin N, (quad1 k i).control i = (quad2 k i).control i)
    (H2 : ∀ k, k < T → ∀ i : Fin N, (quad1 k i).state.hess = (quad2 k i).state.hess)
    (H3 : ∀ k, 1 ≤ k → k < T → ∀ i : Fin N, (quad1 k i).state.grad = (quad2 k i).state.grad) :
    ∀ k : ℕ, k ≤ T - 1 → x_star lin quad1 T x0 k = x_star lin quad2 T x0 k := by
  intro k
  induction k with
  | zero => intro _; rfl
  | succ k ih =>
      intro hk
      have hk1 : k < T - 1 := by omega
      have hsum : (∑ i : Fin N, (lin k).Bs i *ᵥ
            (warped_Bs lin quad1 k i *ᵥ ms lin quad2 T (k + 1) i + warped_rs quad1 k i)) =
          ∑ i : Fin N, (lin k).Bs i *ᵥ
            (warped_Bs lin quad2 k i *ᵥ ms lin quad2 T (k + 1) i + warped_rs quad2 k i) :=
        Finset.sum_congr rfl fun i _ => by
          rw [warped_Bs_congr lin quad1 quad2 k i (H1 k hk1 i),
              warped_rs_congr quad1 quad2 k i (H1 k hk1 i)]
      simp only [x_star, ih (by omega),
        ms_congr T lin quad1 quad2 hT H1 H2 H3 (k + 1),
        capital_lambdas_congr T lin quad1 quad2 hT H1 H2 k hk1, hsum]

theorem alpha_congr (T : ℕ) (lin : LinSeq n N md)
    (quad1 quad2 : QuadSeq n N md) (x0 : Vec n) (hT : 2 ≤ T)
    (H1 : ∀ k, k < T - 1 → ∀ i : Fin N, (quad1 k i).control i = (quad2 k i).control i)
    (H2 : ∀ k, k < T → ∀ i : Fin N, (quad1 k i).state.hess = (quad2 k i).state.hess)
    (H3 : ∀ k, 1 ≤ k → k < T → ∀ i : Fin N, (quad1 k i).state.grad = (quad2 k i).state.grad)
    (i : Fin N) (k : ℕ) (hk : k < T - 1) :
    alpha lin quad1 T x0 i k = alpha lin quad2 T x0 i k := by
  rw [alpha, alpha,
      warped_Bs_congr lin quad1 quad2 k i (H1 k hk i),
      warped_rs_congr quad1 quad2 k i (H1 k hk i),
      Ms_congr T lin quad1 quad2 hT H1 H2 (k + 1),
      ms_congr T lin quad1 quad2 hT H1 H2 H3 (k + 1),
      x_star_congr T lin quad1 quad2 x0 hT H1 H2 H3 (k + 1) (by omega)]

/-- `Solve` depends on the quadraticization only through the state
Hessians at times `< T`, the state gradients at times in `[1, T)` and the
diagonal control entries at times `< T-1`. -/
theorem Solve_congr_of_agree (T : ℕ) (lin : LinSeq n N md)
    (quad1 quad2 : QuadSeq n N md) (x0 : Vec n) (hT : 2 ≤ T)
    (H1 : ∀ k, k < T - 1 → ∀ i : Fin N, (quad1 k i).control i = (quad2 k i).control i)
    (H2 : ∀ k, k < T → ∀ i : Fin N, (quad1 k i).state.hess = (quad2 k i).state.hess)
    (H3 : ∀ k, 1 ≤ k → k < T → ∀ i : Fin N, (quad1 k i).state.grad = (quad2 k i).state.grad) :
    Solve lin quad1 T x0 = Solve lin quad2 T x0 := by
  rw [Solve, Solve]
  refine List.map_congr_left fun i _ => ?_
  have hs : SolveStrategy lin quad1 T x0 i = SolveStrategy lin quad2 T x0 i := by
    rw [SolveStrategy, SolveStrategy]
    congr 1
    refine List.map_congr_left fun k hk => ?_
    exact alpha_congr T lin quad1 quad2 x0 hT H1 H2 H3 i k (List.mem_range.mp hk)
  rw [hs]


/-! ## Claim C9: no dependence on cross-agent control terms -/

/-- C9: the output of `Solve` does not depend on any cross-agent control
term: two well-posed inputs that agree on the linearization, `x0`, every
state term, and every diagonal control entry `control[i]` of
`quadraticization[k][i]`, but differ arbitrarily in the off-diagonal
control entries `control[j]`, `j ≠ i`, produce identical strategies. -/
theorem C9_no_cross_control_dependence (T : ℕ) (lin : LinSeq n N md)
    (quad1 quad2 : QuadSeq n N md) (x0 : Vec n) (hT : 2 ≤ T)
    (hstate : ∀ k, k < T → ∀ i : Fin N, (quad1 k i).state = (quad2 k i).state)
    (hdiag : ∀ k, k < T → ∀ i : Fin N,
      (quad1 k i).control i = (quad2 k i).control i) :
    Solve lin quad1 T x0 = Solve lin quad2 T x0 :=
  Solve_congr_of_agree T lin quad1 quad2 x0 hT
    (fun k hk i => hdiag k (by omega) i)
    (fun k hk i => by rw [hstate k hk i])
    (fun k _ hk i => by rw [hstate k hk i])

/-- Closed witness for C9: two-agent inputs differing only in the
cross-control entries (`R_{ij} = 5, r_{ij} = 7` versus `R_{ij} = 1,
r_{ij} = 0`) give the same strategies. -/
theorem C9_witness :
    Solve exLin2 exQuadC9a 2 exX1 = Solve exLin2 exQuadC9b 2 exX1 :=
  C9_no_cross_control_dependence 2 exLin2 exQuadC9a exQuadC9b exX1 (by norm_num)
    (fun _ _ _ => rfl)
    (fun k _ i => by simp [exQuadC9a, exQuadC9b])

/-! ## Claim C10: no dependence on the initial state gradient -/

/-- C10: the output of `Solve` never depends on the state gradient of the
initial time step: two inputs with `T ≥ 2` that differ only in
`quadraticization[0][i].state.grad` (they agree at all times `k ≥ 1`, and
at `k = 0` on the state Hessian and the whole control map) produce
identical strategies. The backward pass reads state gradients only from
step `k+1 ≥ 1` and the terminal seed reads only step `T-1 ≥ 1`. -/
theorem C10_no_initial_grad_dependence (T : ℕ) (lin : LinSeq n N md)
    (quad1 quad2 : QuadSeq n N md) (x0 : Vec n) (hT : 2 ≤ T)
    (hlater : ∀ k, 1 ≤ k → ∀ i : Fin N, quad1 k i = quad2 k i)
    (hhess0 : ∀ i : Fin N, (quad1 0 i).state.hess = (quad2 0 i).state.hess)
    (hctrl0 : ∀ i : Fin N, (quad1 0 i).control = (quad2 0 i).control) :
    Solve lin quad1 T x0 = Solve lin quad2 T x0 :=
  Solve_congr_of_agree T lin quad1 quad2 x0 hT
    (fun k _ i => by
      rcases Nat.eq_zero_or_pos k with h0 | h1
      · subst h0; exact congrFun (hctrl0 i) i
      · rw [hlater k h1 i])
    (fun k _ i => by
      rcases Nat.eq_zero_or_pos k with h0 | h1
      · subst h0; exact hhess0 i
      · rw [hlater k h1 i])
    (fun k h1 _ i => by rw [hlater k h1 i])

/-- Closed witness for C10: scalar single-agent inputs that differ only
in the state gradient at time `0` (`l_0 = 0` versus `l_0 = 9`) give the
same strategies. -/
theorem C10_witness :
    Solve exLin1 exQuad1 2 exX1 = Solve exLin1 exQuadC10b 2 exX1 :=
  C10_no_initial_grad_dependence 2 exLin1 exQuad1 exQuadC10b exX1 (by norm_num)
    (fun k hk i => by
      have hne : k ≠ 0 := by omega
      simp [exQuad1, exQuadC10b, hne])
    (fun _ => rfl)
    (fun _ => rfl)

end ilqgames
